import Mathlib

/-!
# Preparing objects for unified storage

A shallow embedding of `pkg/storage/unified/apistore/prepare.go`:
`prepareObjectForStorage` (create), `prepareObjectForUpdate` (update) and
`updateSecureFields` (the secure-value extractor).

In-place mutation through the meta accessor is modelled by explicit state
passing: every operation returns the object as it is left behind together with
the Go return values.  Go maps are association lists read with `mapGet` and
written with `mapSet`; the order in which `range` visits a map is a parameter.
-/

namespace Apistore

/-- The in-object secure value (`utils.SecureValue`): `GUID`, raw `Value`, `Ref`. -/
structure SecureValue where
  GUID : String
  Value : String
  Ref : String
deriving DecidableEq, Repr

/-- The record handed to the storage engine (`resource.SecureValue`). -/
structure ResourceSecureValue where
  Guid : String
  Value : String
  Refid : String
deriving DecidableEq, Repr

/-- Modelled from the spec: the object behind a `utils.GrafanaMetaAccessor`
(package `utils`), one independent field per getter and setter pair that
`prepare.go` calls; a setter writes its own field and touches no other, and
all but `SetUpdatedTimestampMillis` (a parameter, see `Env`) store their
argument.  `updatedTimestamp` is in milliseconds.  `secure = none` is the case where `GetSecureValues`
reports `ok = false`; `updatedTimestamp = none` is an unset timestamp. -/
structure Object where
  name : String
  generateName : String
  uid : String
  resourceVersion : String
  selfLink : String
  creationTimestamp : Int
  createdBy : String
  updatedBy : String
  updatedTimestamp : Option Int
  origin : String
  secure : Option (List (String × SecureValue))
deriving DecidableEq, Repr

/-- A `runtime.Object`: either it has object metadata, or `utils.MetaAccessor`
fails on it with the given message. -/
inductive RuntimeObject where
  | unstructured (msg : String)
  | structured (o : Object)
deriving DecidableEq, Repr

/-- The errors returned by the functions of `prepare.go`, one constructor per
`return ..., err` site. -/
inductive Error where
  | noUserClaims
  | metaAccessor (msg : String)
  | newObjectMustHaveName
  | updatedObjectMustHaveName
  | ErrResourceVersionSetOnCreate
  | originInfo (msg : String)
  | unableToWriteSecureValue (k : String)
  | setSecureValue (msg : String)
  | encode (msg : String)
deriving DecidableEq, Repr

/-- Everything `prepare.go` calls but does not define: the accessor's
validation rule and setter guard, the origin reader and writer, the codec,
the uuid source, the clock, the update-time setter and the visiting order of
`range`. -/
structure Env where
  /-- The rule `SecureValue.IsValidForWrite`. -/
  IsValidForWrite : SecureValue → Bool
  /-- The error, if any, with which `SetSecureValue(k, v)` refuses the write. -/
  SetSecureValueErr : Object → String → SecureValue → Option String
  /-- Parsing of the origin annotations, `GetOriginInfo`. -/
  GetOriginInfo : String → Except String String
  /-- Writing of the origin annotations, `SetOriginInfo`. -/
  SetOriginInfo : String → String
  /-- The codec, `s.codec.Encode`. -/
  Encode : Object → Except String (List Nat)
  /-- The identifier produced by the n-th call of `uuid.NewString`. -/
  NewString : Nat → String
  /-- The value of `time.Now().UnixMilli()`. -/
  nowMillis : Int
  /-- The update time, in milliseconds, that `SetUpdatedTimestampMillis(v)` leaves in
  the object, none when it clears it. -/
  SetUpdatedTimestampMillis : Int → Option Int
  /-- The order in which `range` visits the entries of a map. -/
  rangeOrder : List (String × SecureValue) → List (String × SecureValue)

/-- Reading a Go map: `m[k]`. -/
def mapGet {α : Type} : List (String × α) → String → Option α
  | [], _ => none
  | (k', v') :: rest, k => if k' = k then some v' else mapGet rest k

/-- Writing a Go map: `m[k] = v`. -/
def mapSet {α : Type} : List (String × α) → String → α → List (String × α)
  | [], k, v => [(k, v)]
  | (k', v') :: rest, k, v =>
    if k' = k then (k, v) :: rest else (k', v') :: mapSet rest k v

/-- The keys of a Go map. -/
def mapKeys {α : Type} (m : List (String × α)) : List String := m.map Prod.fst

/-- Modelled from the spec: `utils.MetaAccessor` (package `utils`), which fails
when the object cannot be read as an object with metadata. -/
def MetaAccessor : RuntimeObject → Except Error Object
  | .unstructured msg => .error (.metaAccessor msg)
  | .structured o => .ok o

/-- Modelled from the spec: the setter `SetSecureValue` of the object accessor
(package `utils`), a write the accessor may refuse; a write it accepts stores
`v` under `k`, a write it refuses leaves the object as it was. -/
def SetSecureValue (env : Env) (obj : Object) (k : String) (v : SecureValue) :
    Except String Object :=
  match env.SetSecureValueErr obj k v with
  | some e => .error e
  | none => .ok { obj with secure := some (mapSet (obj.secure.getD []) k v) }

/-- The body of `for k, v := range secure` in `updateSecureFields`, over the
entries still to visit.  State: the object, the number of identifiers drawn
so far, and the `fields` map built so far. -/
def secureLoop (env : Env) :
    List (String × SecureValue) → Object → Nat → List (String × ResourceSecureValue) →
      Object × Nat × Except Error (List (String × ResourceSecureValue))
  | [], obj, n, fields => (obj, n, .ok fields)
  | (k, v) :: rest, obj, n, fields =>
    if !env.IsValidForWrite v then
      (obj, n, .error (.unableToWriteSecureValue k))
    else if v.GUID = "" then
      let g := env.NewString n
      let sv : ResourceSecureValue := { Guid := g, Value := v.Value, Refid := v.Ref }
      let v' : SecureValue := { GUID := g, Value := "", Ref := "" }
      match SetSecureValue env obj k v' with
      | .error e => (obj, n + 1, .error (.setSecureValue e))
      | .ok obj' => secureLoop env rest obj' (n + 1) (mapSet fields k sv)
    else
      secureLoop env rest obj n
        (mapSet fields k { Guid := v.GUID, Value := "", Refid := "" })

/-- The function `Storage.updateSecureFields`, called by the create path and by
the update path.  The result map is `none` for Go's `nil` map. -/
def updateSecureFields (env : Env) (obj : Object) (n : Nat) :
    Object × Nat × Except Error (Option (List (String × ResourceSecureValue))) :=
  match obj.secure with
  | none => (obj, n, .ok none)
  | some secure =>
    if secure.length < 1 then (obj, n, .ok none)
    else
      match secureLoop env (env.rangeOrder secure) obj n [] with
      | (obj', n', .error e) => (obj', n', .error e)
      | (obj', n', .ok fields) => (obj', n', .ok (some fields))

/-- What a prepare call leaves behind and returns: the object after the call,
the number of identifiers drawn, and `(bytes, secure)` or the error. -/
structure Prepared where
  object : RuntimeObject
  uuids : Nat
  result : Except Error (List Nat × Option (List (String × ResourceSecureValue)))

/-- The function `Storage.prepareObjectForStorage`, called on create.  `user` is
the outcome of `claims.From(ctx)`, carrying the principal's UID. -/
def prepareObjectForStorage (env : Env) (user : Option String) (newObject : RuntimeObject)
    (n : Nat) : Prepared :=
  match user with
  | none => ⟨newObject, n, .error .noUserClaims⟩
  | some userUID =>
    match MetaAccessor newObject with
    | .error e => ⟨newObject, n, .error e⟩
    | .ok obj =>
      if obj.name = "" then ⟨newObject, n, .error .newObjectMustHaveName⟩
      else if obj.resourceVersion ≠ "" then
        ⟨newObject, n, .error .ErrResourceVersionSetOnCreate⟩
      else
        let obj := { obj with generateName := "" }
        let obj := { obj with resourceVersion := "" }
        let obj := { obj with selfLink := "" }
        match env.GetOriginInfo obj.origin with
        | .error e => ⟨.structured obj, n, .error (.originInfo e)⟩
        | .ok origin =>
          let obj := { obj with origin := env.SetOriginInfo origin }
          let obj := { obj with updatedBy := "" }
          let obj := { obj with updatedTimestamp := none }
          let obj := { obj with createdBy := userUID }
          match updateSecureFields env obj n with
          | (obj, n, .error e) => ⟨.structured obj, n, .error e⟩
          | (obj, n, .ok secure) =>
            match env.Encode obj with
            | .error e => ⟨.structured obj, n, .error (.encode e)⟩
            | .ok buf => ⟨.structured obj, n, .ok (buf, secure)⟩

/-- The function `Storage.prepareObjectForUpdate`, called on update. -/
def prepareObjectForUpdate (env : Env) (user : Option String)
    (updateObject previousObject : RuntimeObject) (n : Nat) : Prepared :=
  match user with
  | none => ⟨updateObject, n, .error .noUserClaims⟩
  | some userUID =>
    match MetaAccessor updateObject with
    | .error e => ⟨updateObject, n, .error e⟩
    | .ok obj =>
      if obj.name = "" then ⟨updateObject, n, .error .updatedObjectMustHaveName⟩
      else
        match MetaAccessor previousObject with
        | .error e => ⟨updateObject, n, .error e⟩
        | .ok previous =>
          let obj := { obj with uid := previous.uid }
          let obj := { obj with createdBy := previous.createdBy }
          let obj := { obj with creationTimestamp := previous.creationTimestamp }
          match env.GetOriginInfo obj.origin with
          | .error e => ⟨.structured obj, n, .error (.originInfo e)⟩
          | .ok origin =>
            let obj := { obj with origin := env.SetOriginInfo origin }
            let obj := { obj with updatedBy := userUID }
            let obj := { obj with
              updatedTimestamp := env.SetUpdatedTimestampMillis env.nowMillis }
            match updateSecureFields env obj n with
            | (obj, n, .error e) => ⟨.structured obj, n, .error e⟩
            | (obj, n, .ok secure) =>
              match env.Encode obj with
              | .error e => ⟨.structured obj, n, .error (.encode e)⟩
              | .ok buf => ⟨.structured obj, n, .ok (buf, secure)⟩

/-- The secure-value map of an object as a map: no entries when it is absent. -/
def secureOf (obj : Object) : List (String × SecureValue) := obj.secure.getD []

/-- The keys of a returned record mapping, none for the `nil` map. -/
def recordKeys (r : Option (List (String × ResourceSecureValue))) : List String :=
  mapKeys (r.getD [])

/-- The record of field `k` in a returned record mapping. -/
def recordOf (r : Option (List (String × ResourceSecureValue))) (k : String) :
    Option ResourceSecureValue :=
  mapGet (r.getD []) k

/-- How many entries `updateSecureFields` draws a new identifier for. -/
def unresolvedCount (m : List (String × SecureValue)) : Nat :=
  (m.filter (fun e => e.2.GUID = "")).length

/-- A sample validation rule: a secure value is valid for write unless it is
entirely blank. -/
def notBlank (v : SecureValue) : Bool :=
  decide (v.GUID ≠ "") || decide (v.Value ≠ "") || decide (v.Ref ≠ "")

/-- A sample update-time setter: it keeps whole seconds, as a setter that writes
the time as RFC 3339 text does, and clears the time when given no instant. -/
def wholeSeconds (v : Int) : Option Int :=
  if v > 0 then some (v / 1000 * 1000) else none

/-- A sample identifier source: the n-th identifier is `u` followed by n marks. -/
def sampleUuid (n : Nat) : String := String.mk ('u' :: List.replicate n 'x')

/-- A sample environment: every accepted write goes through, the origin is
copied, the codec writes the length of the name, the update time is kept in
whole seconds, `range` visits a map back to front. -/
def sampleEnv : Env where
  IsValidForWrite := notBlank
  SetSecureValueErr := fun _ _ _ => none
  GetOriginInfo := fun s => .ok s
  SetOriginInfo := fun s => s
  Encode := fun o => .ok [o.name.length]
  NewString := sampleUuid
  nowMillis := 1730000000123
  SetUpdatedTimestampMillis := wholeSeconds
  rangeOrder := List.reverse

/-- A sample object with the given name, resource version and secure values. -/
def sampleObject (name rv : String) (secure : Option (List (String × SecureValue))) :
    Object where
  name := name
  generateName := "gen-"
  uid := "u0"
  resourceVersion := rv
  selfLink := "/self"
  creationTimestamp := 5
  createdBy := "user:0"
  updatedBy := "user:7"
  updatedTimestamp := some 9
  origin := "file"
  secure := secure

/-- An object with a blank secure value and a first-time secure value. -/
def blankAndFresh : Object :=
  sampleObject "a" "" (some [("bad", ⟨"", "", ""⟩), ("token", ⟨"", "secret123", ""⟩)])

/-- An object with a first-time secure value and an already resolved one. -/
def freshAndResolved : Object :=
  sampleObject "a" "" (some [("token", ⟨"", "secret123", "ref-1"⟩), ("old", ⟨"g", "", ""⟩)])

/-- The stored object of the update example: uid `u1`, created by `user:1` at
instant 1000. -/
def storedObject : Object where
  name := "a"
  generateName := ""
  uid := "u1"
  resourceVersion := "3"
  selfLink := ""
  creationTimestamp := 1000
  createdBy := "user:1"
  updatedBy := "user:1"
  updatedTimestamp := some 1000
  origin := "file"
  secure := none

/-- The update of the example, which tampers with uid, creator and creation
time. -/
def tamperedUpdate : Object :=
  { storedObject with uid := "tampered", createdBy := "user:99", creationTimestamp := 7,
                      updatedBy := "user:99", updatedTimestamp := some 8 }

/-! ## Go maps as association lists -/

theorem mapGet_mapSet {α : Type} (m : List (String × α)) (k : String) (v : α) (k' : String) :
    mapGet (mapSet m k v) k' = if k = k' then some v else mapGet m k' := by
  induction m with
  | nil => simp [mapSet, mapGet]
  | cons e rest ih =>
    obtain ⟨k0, v0⟩ := e
    by_cases h0 : k0 = k
    · subst h0
      by_cases h1 : k0 = k' <;> simp [mapSet, mapGet, h1]
    · by_cases h1 : k0 = k'
      · subst h1
        have h2 : ¬ k = k0 := fun h => h0 h.symm
        simp [mapSet, mapGet, h0, h2]
      · simp [mapSet, mapGet, h0, h1, ih]

theorem mapGet_mapSet_self {α : Type} (m : List (String × α)) (k : String) (v : α) :
    mapGet (mapSet m k v) k = some v := by
  simp [mapGet_mapSet]

theorem mapGet_mapSet_ne {α : Type} (m : List (String × α)) (k : String) (v : α) (k' : String)
    (h : k ≠ k') : mapGet (mapSet m k v) k' = mapGet m k' := by
  simp [mapGet_mapSet, h]

theorem mapSet_of_not_mem {α : Type} (m : List (String × α)) (k : String) (v : α)
    (h : k ∉ mapKeys m) : mapSet m k v = m ++ [(k, v)] := by
  induction m with
  | nil => simp [mapSet]
  | cons e rest ih =>
    obtain ⟨k0, v0⟩ := e
    simp only [mapKeys, List.map_cons, List.mem_cons, not_or] at h
    have h0 : ¬ k0 = k := fun h' => h.1 h'.symm
    simp only [mapSet, h0, if_false, List.cons_append]
    rw [ih h.2]

theorem mem_of_mapGet {α : Type} (m : List (String × α)) (k : String) (v : α)
    (h : mapGet m k = some v) : (k, v) ∈ m := by
  induction m with
  | nil => simp [mapGet] at h
  | cons e rest ih =>
    obtain ⟨k0, v0⟩ := e
    by_cases h0 : k0 = k
    · subst h0
      simp only [mapGet, if_true, Option.some.injEq] at h
      subst h
      exact List.mem_cons_self _ _
    · simp only [mapGet, h0, if_false] at h
      exact List.mem_cons_of_mem _ (ih h)

theorem mapGet_of_mem {α : Type} (m : List (String × α)) (k : String) (v : α)
    (hnd : (mapKeys m).Nodup) (h : (k, v) ∈ m) : mapGet m k = some v := by
  induction m with
  | nil => simp at h
  | cons e rest ih =>
    obtain ⟨k0, v0⟩ := e
    simp only [mapKeys, List.map_cons, List.nodup_cons] at hnd
    rcases List.mem_cons.mp h with heq | hmem
    · simp only [Prod.mk.injEq] at heq
      obtain ⟨hk, hv⟩ := heq
      subst hk
      subst hv
      simp [mapGet]
    · have hne : ¬ k0 = k := by
        intro hk
        subst hk
        exact hnd.1 (List.mem_map_of_mem Prod.fst hmem)
      simp only [mapGet, hne, if_false]
      exact ih hnd.2 hmem

theorem mem_mapKeys_of_mem {α : Type} (m : List (String × α)) (k : String) (v : α)
    (h : (k, v) ∈ m) : k ∈ mapKeys m :=
  List.mem_map_of_mem Prod.fst h

/-! ## The loop of `updateSecureFields` -/

/-- One successful pass of the loop body: the visited value is valid for
write, and either it had no guid, the write of the fresh guid went through and
the rest of the loop ran on the rewritten object, or it had a guid and the
rest of the loop ran on the same object. -/
theorem secureLoop_cons_ok (env : Env) (k : String) (v : SecureValue)
    (rest : List (String × SecureValue)) (obj obj' : Object) (n n' : Nat)
    (f out : List (String × ResourceSecureValue))
    (h : secureLoop env ((k, v) :: rest) obj n f = (obj', n', .ok out)) :
    env.IsValidForWrite v = true ∧
    ((v.GUID = "" ∧
        secureLoop env rest
          { obj with secure := some (mapSet (secureOf obj) k ⟨env.NewString n, "", ""⟩) }
          (n + 1) (mapSet f k ⟨env.NewString n, v.Value, v.Ref⟩) = (obj', n', .ok out)) ∨
     (v.GUID ≠ "" ∧
        secureLoop env rest obj n (mapSet f k ⟨v.GUID, "", ""⟩) = (obj', n', .ok out))) := by
  unfold secureLoop at h
  cases hv : env.IsValidForWrite v with
  | false => simp [hv] at h
  | true =>
    refine ⟨rfl, ?_⟩
    simp only [hv, Bool.not_true, Bool.false_eq_true, if_false] at h
    by_cases hg : v.GUID = ""
    · left
      refine ⟨hg, ?_⟩
      simp only [hg, if_true, SetSecureValue] at h
      cases he : env.SetSecureValueErr obj k ⟨env.NewString n, "", ""⟩ with
      | some e => simp [he] at h
      | none =>
        simp only [he] at h
        exact h
    · right
      refine ⟨hg, ?_⟩
      simp only [hg, if_false] at h
      exact h

/-- The loop writes the secure-value map only: every other field of the
object is as it was, whether the loop succeeds or fails. -/
theorem secureLoop_frame (env : Env) (es : List (String × SecureValue)) :
    ∀ (obj : Object) (n : Nat) (f : List (String × ResourceSecureValue)),
      (secureLoop env es obj n f).1 =
        { obj with secure := (secureLoop env es obj n f).1.secure } := by
  induction es with
  | nil => intro obj n f; simp [secureLoop]
  | cons e rest ih =>
    intro obj n f
    obtain ⟨k, v⟩ := e
    unfold secureLoop
    cases hv : env.IsValidForWrite v with
    | false => simp
    | true =>
      simp only [Bool.not_true, Bool.false_eq_true, if_false]
      by_cases hg : v.GUID = ""
      · simp only [hg, if_true, SetSecureValue]
        cases he : env.SetSecureValueErr obj k ⟨env.NewString n, "", ""⟩ with
        | some e => simp
        | none =>
          simp only []
          rw [ih]
      · simp only [hg, if_false]
        exact ih obj n _

/-- A successful loop draws one identifier per visited entry without a guid. -/
theorem secureLoop_ok_uuids (env : Env) (es : List (String × SecureValue)) :
    ∀ (obj obj' : Object) (n n' : Nat) (f out : List (String × ResourceSecureValue)),
      secureLoop env es obj n f = (obj', n', .ok out) → n' = n + unresolvedCount es := by
  induction es with
  | nil =>
    intro obj obj' n n' f out h
    simp only [secureLoop, Prod.mk.injEq] at h
    simp [unresolvedCount, h.2.1.symm]
  | cons e rest ih =>
    intro obj obj' n n' f out h
    obtain ⟨k, v⟩ := e
    obtain ⟨_, hcase⟩ := secureLoop_cons_ok env k v rest obj obj' n n' f out h
    rcases hcase with ⟨hg, hrest⟩ | ⟨hg, hrest⟩
    · have := ih _ _ _ _ _ _ hrest
      simp only [unresolvedCount] at this ⊢
      simp [List.filter_cons, hg, this]
      omega
    · have := ih _ _ _ _ _ _ hrest
      simp only [unresolvedCount] at this ⊢
      simp [List.filter_cons, hg, this]

/-- A successful loop leaves the fields it does not visit alone, in the object
and in the record mapping. -/
theorem secureLoop_ok_skip (env : Env) (es : List (String × SecureValue)) :
    ∀ (obj obj' : Object) (n n' : Nat) (f out : List (String × ResourceSecureValue)),
      secureLoop env es obj n f = (obj', n', .ok out) →
      ∀ k, k ∉ mapKeys es →
        mapGet (secureOf obj') k = mapGet (secureOf obj) k ∧ mapGet out k = mapGet f k := by
  induction es with
  | nil =>
    intro obj obj' n n' f out h k _
    simp only [secureLoop, Prod.mk.injEq, Except.ok.injEq] at h
    obtain ⟨h1, _, h3⟩ := h
    subst h1
    subst h3
    exact ⟨rfl, rfl⟩
  | cons e rest ih =>
    intro obj obj' n n' f out h k' hk'
    obtain ⟨k, v⟩ := e
    simp only [mapKeys, List.map_cons, List.mem_cons, not_or] at hk'
    have hne : k ≠ k' := fun h' => hk'.1 h'.symm
    obtain ⟨_, hcase⟩ := secureLoop_cons_ok env k v rest obj obj' n n' f out h
    rcases hcase with ⟨_, hrest⟩ | ⟨_, hrest⟩
    · obtain ⟨h1, h2⟩ := ih _ _ _ _ _ _ hrest k' hk'.2
      refine ⟨?_, ?_⟩
      · rw [h1]
        simp only [secureOf, Option.getD_some]
        exact mapGet_mapSet_ne _ _ _ _ hne
      · rw [h2]
        exact mapGet_mapSet_ne _ _ _ _ hne
    · obtain ⟨h1, h2⟩ := ih _ _ _ _ _ _ hrest k' hk'.2
      refine ⟨h1, ?_⟩
      rw [h2]
      exact mapGet_mapSet_ne _ _ _ _ hne

/-- What a successful loop does with a visited entry `(k, v)`: `v` was valid
for write; if `v` had a guid the object keeps what it had under `k` and the
record carries that guid only; if `v` had none, one drawn identifier is both
the guid now stored under `k` (with value and ref blank) and the guid of the
record, which carries the raw value and ref of `v`. -/
theorem secureLoop_ok_entry (env : Env) (es : List (String × SecureValue)) :
    ∀ (obj obj' : Object) (n n' : Nat) (f out : List (String × ResourceSecureValue)),
      secureLoop env es obj n f = (obj', n', .ok out) → (mapKeys es).Nodup →
      ∀ k v, (k, v) ∈ es →
        env.IsValidForWrite v = true ∧
        (v.GUID ≠ "" →
          mapGet (secureOf obj') k = mapGet (secureOf obj) k ∧
          mapGet out k = some ⟨v.GUID, "", ""⟩) ∧
        (v.GUID = "" → ∃ i, n ≤ i ∧ i < n' ∧
          mapGet (secureOf obj') k = some ⟨env.NewString i, "", ""⟩ ∧
          mapGet out k = some ⟨env.NewString i, v.Value, v.Ref⟩) := by
  induction es with
  | nil => intro obj obj' n n' f out _ _ k v hmem; simp at hmem
  | cons e rest ih =>
    intro obj obj' n n' f out h hnd k' v' hmem
    obtain ⟨k, v⟩ := e
    simp only [mapKeys, List.map_cons, List.nodup_cons] at hnd
    obtain ⟨hvalid, hcase⟩ := secureLoop_cons_ok env k v rest obj obj' n n' f out h
    rcases List.mem_cons.mp hmem with heq | hin
    · simp only [Prod.mk.injEq] at heq
      obtain ⟨hk, hv⟩ := heq
      subst hk
      subst hv
      refine ⟨hvalid, ?_, ?_⟩
      · intro hg
        rcases hcase with ⟨hg', _⟩ | ⟨_, hrest⟩
        · exact absurd hg' hg
        · obtain ⟨h1, h2⟩ := secureLoop_ok_skip env rest _ _ _ _ _ _ hrest k' hnd.1
          exact ⟨h1, by rw [h2]; exact mapGet_mapSet_self _ _ _⟩
      · intro hg
        rcases hcase with ⟨_, hrest⟩ | ⟨hg', _⟩
        · obtain ⟨h1, h2⟩ := secureLoop_ok_skip env rest _ _ _ _ _ _ hrest k' hnd.1
          have hn := secureLoop_ok_uuids env rest _ _ _ _ _ _ hrest
          refine ⟨n, le_refl n, by omega, ?_, ?_⟩
          · rw [h1]
            simp only [secureOf, Option.getD_some]
            exact mapGet_mapSet_self _ _ _
          · rw [h2]
            exact mapGet_mapSet_self _ _ _
        · exact absurd hg hg'
    · have hne : k ≠ k' := by
        intro hk
        subst hk
        exact hnd.1 (mem_mapKeys_of_mem _ _ _ hin)
      rcases hcase with ⟨_, hrest⟩ | ⟨_, hrest⟩
      · obtain ⟨hv, hres, hunres⟩ := ih _ _ _ _ _ _ hrest hnd.2 k' v' hin
        refine ⟨hv, ?_, ?_⟩
        · intro hg
          obtain ⟨h1, h2⟩ := hres hg
          refine ⟨?_, h2⟩
          rw [h1]
          simp only [secureOf, Option.getD_some]
          exact mapGet_mapSet_ne _ _ _ _ hne
        · intro hg
          obtain ⟨i, hi1, hi2, h1, h2⟩ := hunres hg
          exact ⟨i, by omega, hi2, h1, h2⟩
      · exact ih _ _ _ _ _ _ hrest hnd.2 k' v' hin

/-- The record mapping of a successful loop has the visited keys, in visiting
order, after the keys it started with. -/
theorem secureLoop_ok_keys (env : Env) (es : List (String × SecureValue)) :
    ∀ (obj obj' : Object) (n n' : Nat) (f out : List (String × ResourceSecureValue)),
      secureLoop env es obj n f = (obj', n', .ok out) → (mapKeys es).Nodup →
      (∀ k, k ∈ mapKeys es → k ∉ mapKeys f) →
      mapKeys out = mapKeys f ++ mapKeys es := by
  induction es with
  | nil =>
    intro obj obj' n n' f out h _ _
    simp only [secureLoop, Prod.mk.injEq, Except.ok.injEq] at h
    simp [mapKeys, h.2.2.symm]
  | cons e rest ih =>
    intro obj obj' n n' f out h hnd hdisj
    obtain ⟨k, v⟩ := e
    simp only [mapKeys, List.map_cons, List.nodup_cons] at hnd
    have hk : k ∉ mapKeys f := hdisj k (by simp [mapKeys])
    have hstep : ∀ sv : ResourceSecureValue,
        (∀ k', k' ∈ mapKeys rest → k' ∉ mapKeys (mapSet f k sv)) ∧
        mapKeys (mapSet f k sv) ++ mapKeys rest = mapKeys f ++ mapKeys ((k, v) :: rest) := by
      intro sv
      rw [mapSet_of_not_mem f k sv hk]
      refine ⟨?_, by simp [mapKeys]⟩
      intro k' hk' hmem
      simp only [mapKeys, List.map_append, List.map_cons, List.map_nil, List.mem_append,
        List.mem_singleton] at hmem
      rcases hmem with hmem | hmem
      · exact hdisj k' (by simp only [mapKeys, List.map_cons]; exact List.mem_cons_of_mem _ hk') hmem
      · subst hmem
        exact hnd.1 hk'
    obtain ⟨_, hcase⟩ := secureLoop_cons_ok env k v rest obj obj' n n' f out h
    rcases hcase with ⟨_, hrest⟩ | ⟨_, hrest⟩
    · rw [ih _ _ _ _ _ _ hrest hnd.2 (hstep _).1]
      exact (hstep _).2
    · rw [ih _ _ _ _ _ _ hrest hnd.2 (hstep _).1]
      exact (hstep _).2

/-- Whatever the outcome of the loop, success or error, each field of the
object's secure-value map is either as it was or belongs to a visited entry
without guid and now carries a drawn identifier only. -/
theorem secureLoop_secure (env : Env) (es : List (String × SecureValue)) :
    ∀ (obj : Object) (n : Nat) (f : List (String × ResourceSecureValue)) (k : String),
      mapGet (secureOf (secureLoop env es obj n f).1) k = mapGet (secureOf obj) k ∨
      ∃ v i, (k, v) ∈ es ∧ v.GUID = "" ∧
        mapGet (secureOf (secureLoop env es obj n f).1) k = some ⟨env.NewString i, "", ""⟩ := by
  induction es with
  | nil => intro obj n f k; left; simp [secureLoop]
  | cons e rest ih =>
    intro obj n f k'
    obtain ⟨k, v⟩ := e
    unfold secureLoop
    cases hv : env.IsValidForWrite v with
    | false => left; simp
    | true =>
      simp only [Bool.not_true, Bool.false_eq_true, if_false]
      by_cases hg : v.GUID = ""
      · simp only [hg, if_true, SetSecureValue]
        cases he : env.SetSecureValueErr obj k ⟨env.NewString n, "", ""⟩ with
        | some e => left; simp
        | none =>
          simp only []
          rcases ih { obj with secure := some (mapSet (obj.secure.getD []) k
              ⟨env.NewString n, "", ""⟩) } (n + 1)
              (mapSet f k ⟨env.NewString n, v.Value, v.Ref⟩) k' with h1 | ⟨w, i, hw, hwg, h1⟩
          · by_cases hkk : k = k'
            · subst hkk
              right
              refine ⟨v, n, List.mem_cons_self _ _, hg, ?_⟩
              rw [h1]
              simp only [secureOf, Option.getD_some]
              exact mapGet_mapSet_self _ _ _
            · left
              rw [h1]
              simp only [secureOf, Option.getD_some]
              exact mapGet_mapSet_ne _ _ _ _ hkk
          · right
            exact ⟨w, i, List.mem_cons_of_mem _ hw, hwg, h1⟩
      · simp only [hg, if_false]
        rcases ih obj n (mapSet f k ⟨v.GUID, "", ""⟩) k' with h1 | ⟨w, i, hw, hwg, h1⟩
        · left; exact h1
        · right
          exact ⟨w, i, List.mem_cons_of_mem _ hw, hwg, h1⟩

theorem mapKeys_mapSet_of_mem {α : Type} (m : List (String × α)) (k : String) (v : α)
    (h : k ∈ mapKeys m) : mapKeys (mapSet m k v) = mapKeys m := by
  induction m with
  | nil => simp [mapKeys] at h
  | cons e rest ih =>
    obtain ⟨k0, v0⟩ := e
    by_cases h0 : k0 = k
    · subst h0
      simp [mapSet, mapKeys]
    · have hrest : k ∈ mapKeys rest := by
        simp only [mapKeys, List.map_cons, List.mem_cons] at h
        rcases h with h | h
        · exact absurd h.symm h0
        · exact h
      have := ih hrest
      simp only [mapKeys] at this
      simp [mapSet, mapKeys, h0, this]

theorem exists_mem_of_mem_mapKeys {α : Type} (m : List (String × α)) (k : String)
    (h : k ∈ mapKeys m) : ∃ v, (k, v) ∈ m := by
  simp only [mapKeys, List.mem_map] at h
  obtain ⟨⟨k0, v0⟩, hmem, hk⟩ := h
  simp only at hk
  subst hk
  exact ⟨v0, hmem⟩

/-- The loop keeps the key set of the object's secure-value map, whatever its
outcome, when it visits keys of that map only. -/
theorem secureLoop_mapKeys (env : Env) (es : List (String × SecureValue)) :
    ∀ (obj : Object) (n : Nat) (f : List (String × ResourceSecureValue)),
      (∀ k, k ∈ mapKeys es → k ∈ mapKeys (secureOf obj)) →
      mapKeys (secureOf (secureLoop env es obj n f).1) = mapKeys (secureOf obj) := by
  induction es with
  | nil => intro obj n f _; simp [secureLoop]
  | cons e rest ih =>
    intro obj n f hsub
    obtain ⟨k, v⟩ := e
    have hk : k ∈ mapKeys (secureOf obj) := hsub k (by simp [mapKeys])
    have hrest : ∀ k', k' ∈ mapKeys rest → k' ∈ mapKeys (secureOf obj) := by
      intro k' hk'
      exact hsub k' (by simp only [mapKeys, List.map_cons]; exact List.mem_cons_of_mem _ hk')
    unfold secureLoop
    cases hv : env.IsValidForWrite v with
    | false => simp
    | true =>
      simp only [Bool.not_true, Bool.false_eq_true, if_false]
      by_cases hg : v.GUID = ""
      · simp only [hg, if_true, SetSecureValue]
        cases he : env.SetSecureValueErr obj k ⟨env.NewString n, "", ""⟩ with
        | some e => simp
        | none =>
          simp only []
          have hkeys : mapKeys (secureOf { obj with secure := some (mapSet (obj.secure.getD []) k
              ⟨env.NewString n, "", ""⟩) }) = mapKeys (secureOf obj) := by
            simp only [secureOf, Option.getD_some]
            exact mapKeys_mapSet_of_mem _ _ _ hk
          rw [ih _ _ _ (by rw [hkeys]; exact hrest), hkeys]
      · simp only [hg, if_false]
        exact ih obj n _ hrest

/-! ## `updateSecureFields` -/

/-- The object `updateSecureFields` leaves behind is the one its loop leaves
behind, or the object itself when the map is absent or empty. -/
theorem updateSecureFields_object (env : Env) (obj : Object) (n : Nat) :
    (updateSecureFields env obj n).1 = obj ∨
    (updateSecureFields env obj n).1 =
      (secureLoop env (env.rangeOrder (secureOf obj)) obj n []).1 := by
  unfold updateSecureFields
  cases hs : obj.secure with
  | none => left; rfl
  | some m =>
    simp only []
    by_cases hlen : m.length < 1
    · left; simp [hlen]
    · right
      simp only [hlen, if_false, secureOf, hs, Option.getD_some]
      rcases secureLoop env (env.rangeOrder m) obj n [] with ⟨o, c, r⟩
      cases r <;> rfl

/-- The function `updateSecureFields` writes the secure-value map only. -/
theorem updateSecureFields_frame (env : Env) (obj : Object) (n : Nat) :
    (updateSecureFields env obj n).1 =
      { obj with secure := (updateSecureFields env obj n).1.secure } := by
  rcases updateSecureFields_object env obj n with h | h
  · rw [h]
  · rw [h]
    exact secureLoop_frame env _ obj n []

/-- A successful `updateSecureFields` either found no secure values, touched
nothing and returned the nil map, or ran its loop to the end. -/
theorem updateSecureFields_ok_cases (env : Env) (obj obj' : Object) (n n' : Nat)
    (recs : Option (List (String × ResourceSecureValue)))
    (h : updateSecureFields env obj n = (obj', n', .ok recs)) :
    (secureOf obj = [] ∧ obj' = obj ∧ n' = n ∧ recs = none) ∨
    (∃ out, secureLoop env (env.rangeOrder (secureOf obj)) obj n [] = (obj', n', .ok out) ∧
      recs = some out) := by
  unfold updateSecureFields at h
  cases hs : obj.secure with
  | none =>
    left
    simp only [hs, Prod.mk.injEq, Except.ok.injEq] at h
    exact ⟨by simp [secureOf, hs], h.1.symm, h.2.1.symm, h.2.2.symm⟩
  | some m =>
    simp only [hs] at h
    by_cases hlen : m.length < 1
    · left
      simp only [hlen, if_true, Prod.mk.injEq, Except.ok.injEq] at h
      have hm : m = [] := by
        cases m with
        | nil => rfl
        | cons a b => simp at hlen
      exact ⟨by simp [secureOf, hs, hm], h.1.symm, h.2.1.symm, h.2.2.symm⟩
    · right
      simp only [hlen, if_false] at h
      simp only [secureOf, hs, Option.getD_some]
      rcases hl : secureLoop env (env.rangeOrder m) obj n [] with ⟨o, c, r⟩
      rw [hl] at h
      cases r with
      | error e => simp at h
      | ok out =>
        simp only [Prod.mk.injEq, Except.ok.injEq] at h
        obtain ⟨h1, h2, h3⟩ := h
        subst h1
        subst h2
        exact ⟨out, rfl, h3.symm⟩

/-- The key set of the object's secure-value map is the same after
`updateSecureFields` as before, whatever the outcome. -/
theorem updateSecureFields_mapKeys (env : Env) (obj : Object) (n : Nat)
    (hperm : ∀ l, (env.rangeOrder l).Perm l) :
    mapKeys (secureOf (updateSecureFields env obj n).1) = mapKeys (secureOf obj) := by
  rcases updateSecureFields_object env obj n with h | h
  · rw [h]
  · rw [h]
    apply secureLoop_mapKeys
    intro k hk
    exact ((hperm (secureOf obj)).map Prod.fst).subset hk

/-- What a successful `updateSecureFields` does with a field `k` holding `v`. -/
theorem updateSecureFields_ok_entry (env : Env) (obj obj' : Object) (n n' : Nat)
    (recs : Option (List (String × ResourceSecureValue)))
    (hperm : ∀ l, (env.rangeOrder l).Perm l)
    (hnd : (mapKeys (secureOf obj)).Nodup)
    (h : updateSecureFields env obj n = (obj', n', .ok recs))
    (k : String) (v : SecureValue) (hk : mapGet (secureOf obj) k = some v) :
    env.IsValidForWrite v = true ∧
    (v.GUID ≠ "" →
      mapGet (secureOf obj') k = some v ∧ recordOf recs k = some ⟨v.GUID, "", ""⟩) ∧
    (v.GUID = "" → ∃ i, n ≤ i ∧ i < n' ∧
      mapGet (secureOf obj') k = some ⟨env.NewString i, "", ""⟩ ∧
      recordOf recs k = some ⟨env.NewString i, v.Value, v.Ref⟩) := by
  rcases updateSecureFields_ok_cases env obj obj' n n' recs h with ⟨hempty, _⟩ | ⟨out, hl, hr⟩
  · rw [hempty] at hk
    simp [mapGet] at hk
  · have hmem : (k, v) ∈ env.rangeOrder (secureOf obj) :=
      (hperm (secureOf obj)).symm.subset (mem_of_mapGet _ _ _ hk)
    have hnd' : (mapKeys (env.rangeOrder (secureOf obj))).Nodup :=
      (((hperm (secureOf obj)).map Prod.fst).nodup_iff).mpr hnd
    obtain ⟨hv, hres, hunres⟩ := secureLoop_ok_entry env _ _ _ _ _ _ _ hl hnd' k v hmem
    subst hr
    refine ⟨hv, ?_, ?_⟩
    · intro hg
      obtain ⟨h1, h2⟩ := hres hg
      exact ⟨by rw [h1]; exact hk, by simpa [recordOf] using h2⟩
    · intro hg
      obtain ⟨i, hi1, hi2, h1, h2⟩ := hunres hg
      exact ⟨i, hi1, hi2, h1, by simpa [recordOf] using h2⟩

/-- Every field of the secure-value map after `updateSecureFields` is a field of
the map before it. -/
theorem updateSecureFields_entry_before (env : Env) (obj : Object) (n : Nat)
    (hperm : ∀ l, (env.rangeOrder l).Perm l)
    (hnd : (mapKeys (secureOf obj)).Nodup)
    (k : String) (v' : SecureValue)
    (hk : mapGet (secureOf (updateSecureFields env obj n).1) k = some v') :
    ∃ v, mapGet (secureOf obj) k = some v := by
  have hkeys := updateSecureFields_mapKeys env obj n hperm
  have h1 : k ∈ mapKeys (secureOf obj) := by
    rw [← hkeys]
    exact mem_mapKeys_of_mem _ _ _ (mem_of_mapGet _ _ _ hk)
  obtain ⟨v, hv⟩ := exists_mem_of_mem_mapKeys _ _ h1
  exact ⟨v, mapGet_of_mem _ _ _ hnd hv⟩

/-- A loop that ends in an error fails at one visited field, which it leaves
as it was in the object: the field is not valid for write, or it is valid,
has no guid, and the accessor refused the rewritten value. -/
theorem secureLoop_error (env : Env) (es : List (String × SecureValue)) :
    ∀ (obj obj' : Object) (n n' : Nat) (f : List (String × ResourceSecureValue)) (e : Error),
      secureLoop env es obj n f = (obj', n', .error e) → (mapKeys es).Nodup →
      ∃ kf vf, (kf, vf) ∈ es ∧ mapGet (secureOf obj') kf = mapGet (secureOf obj) kf ∧
        ((e = .unableToWriteSecureValue kf ∧ env.IsValidForWrite vf = false) ∨
         (∃ msg, e = .setSecureValue msg ∧ env.IsValidForWrite vf = true ∧ vf.GUID = "")) := by
  induction es with
  | nil => intro obj obj' n n' f e h _; simp [secureLoop] at h
  | cons hd rest ih =>
    intro obj obj' n n' f e h hnd
    obtain ⟨k, v⟩ := hd
    simp only [mapKeys, List.map_cons, List.nodup_cons] at hnd
    have hlift : ∀ (o1 : Object) (n1 : Nat) (f1 : List (String × ResourceSecureValue)),
        (∀ k', k ≠ k' → mapGet (secureOf o1) k' = mapGet (secureOf obj) k') →
        secureLoop env rest o1 n1 f1 = (obj', n', .error e) →
        ∃ kf vf, (kf, vf) ∈ (k, v) :: rest ∧
          mapGet (secureOf obj') kf = mapGet (secureOf obj) kf ∧
          ((e = .unableToWriteSecureValue kf ∧ env.IsValidForWrite vf = false) ∨
           (∃ msg, e = .setSecureValue msg ∧ env.IsValidForWrite vf = true ∧ vf.GUID = "")) := by
      intro o1 n1 f1 hsame hrest
      obtain ⟨kf, vf, hmem, hget, hwhy⟩ := ih _ _ _ _ _ _ hrest hnd.2
      have hne : k ≠ kf := by
        intro hk
        subst hk
        exact hnd.1 (mem_mapKeys_of_mem _ _ _ hmem)
      exact ⟨kf, vf, List.mem_cons_of_mem _ hmem, by rw [hget]; exact hsame kf hne, hwhy⟩
    unfold secureLoop at h
    cases hv : env.IsValidForWrite v with
    | false =>
      simp only [hv, Bool.not_false, if_true, Prod.mk.injEq, Except.error.injEq] at h
      obtain ⟨h1, _, h3⟩ := h
      subst h1
      exact ⟨k, v, List.mem_cons_self _ _, rfl, Or.inl ⟨h3.symm, hv⟩⟩
    | true =>
      simp only [hv, Bool.not_true, Bool.false_eq_true, if_false] at h
      by_cases hg : v.GUID = ""
      · simp only [hg, if_true, SetSecureValue] at h
        cases he : env.SetSecureValueErr obj k ⟨env.NewString n, "", ""⟩ with
        | some msg =>
          simp only [he, Prod.mk.injEq, Except.error.injEq] at h
          obtain ⟨h1, _, h3⟩ := h
          subst h1
          exact ⟨k, v, List.mem_cons_self _ _, rfl, Or.inr ⟨msg, h3.symm, hv, hg⟩⟩
        | none =>
          simp only [he] at h
          refine hlift _ _ _ ?_ h
          intro k' hne
          simp only [secureOf, Option.getD_some]
          exact mapGet_mapSet_ne _ _ _ _ hne
      · simp only [hg, if_false] at h
        exact hlift _ _ _ (fun _ _ => rfl) h

/-- The loop `updateSecureFields` ran when it returns an error. -/
theorem updateSecureFields_error_cases (env : Env) (obj obj' : Object) (n n' : Nat)
    (e : Error) (h : updateSecureFields env obj n = (obj', n', .error e)) :
    secureLoop env (env.rangeOrder (secureOf obj)) obj n [] = (obj', n', .error e) := by
  unfold updateSecureFields at h
  cases hs : obj.secure with
  | none => simp [hs] at h
  | some m =>
    simp only [hs] at h
    by_cases hlen : m.length < 1
    · simp [hlen] at h
    · simp only [hlen, if_false] at h
      simp only [secureOf, hs, Option.getD_some]
      rcases hl : secureLoop env (env.rangeOrder m) obj n [] with ⟨o, c, r⟩
      rw [hl] at h
      cases r with
      | ok out => simp at h
      | error e' =>
        simp only [Prod.mk.injEq, Except.error.injEq] at h
        obtain ⟨h1, h2, h3⟩ := h
        subst h1
        subst h2
        subst h3
        rfl

/-! ## Sample inputs -/

theorem sampleEnv_rangeOrder_perm (l : List (String × SecureValue)) :
    (sampleEnv.rangeOrder l).Perm l :=
  List.reverse_perm l

theorem sampleUuid_ne_empty (n : Nat) : sampleEnv.NewString n ≠ "" := by
  intro h
  have := congrArg String.length h
  simp [sampleEnv, sampleUuid] at this

/-! ## The secure-value extractor: claims -/

/-- After a successful `updateSecureFields`, every entry of the object's
secure-value map has a non-empty GUID; it is the entry of a field the map had
before, and if that field had no GUID its Value and Ref are now empty, while
if it had a GUID the entry is exactly what it was. -/
theorem updateSecureFields_entries_after (env : Env) (obj obj' : Object) (n n' : Nat)
    (recs : Option (List (String × ResourceSecureValue)))
    (hperm : ∀ l, (env.rangeOrder l).Perm l)
    (hnd : (mapKeys (secureOf obj)).Nodup)
    (huuid : ∀ i, env.NewString i ≠ "")
    (h : updateSecureFields env obj n = (obj', n', .ok recs))
    (k : String) (v' : SecureValue) (hk : mapGet (secureOf obj') k = some v') :
    v'.GUID ≠ "" ∧
    ∃ v, mapGet (secureOf obj) k = some v ∧
      (v.GUID = "" → v'.Value = "" ∧ v'.Ref = "") ∧ (v.GUID ≠ "" → v' = v) := by
  have hobj : (updateSecureFields env obj n).1 = obj' := by rw [h]
  obtain ⟨v, hv⟩ := updateSecureFields_entry_before env obj n hperm hnd k v'
    (by rw [hobj]; exact hk)
  obtain ⟨_, hres, hunres⟩ := updateSecureFields_ok_entry env obj obj' n n' recs hperm hnd h k v hv
  by_cases hg : v.GUID = ""
  · obtain ⟨i, _, _, h1, _⟩ := hunres hg
    rw [hk] at h1
    simp only [Option.some.injEq] at h1
    subst h1
    exact ⟨huuid i, v, hv, fun _ => ⟨rfl, rfl⟩, fun hg' => absurd hg hg'⟩
  · obtain ⟨h1, _⟩ := hres hg
    rw [hk] at h1
    simp only [Option.some.injEq] at h1
    subst h1
    exact ⟨hg, v', hv, fun hg' => absurd hg' hg, fun _ => rfl⟩

/-- Claim C1: after a successful `updateSecureFields`, every entry of the
object's secure-value map carries only a guid: its GUID is non-empty and its
Value and Ref are empty.  The secure values are those of the data model: one
that is valid for write and has a GUID is resolved, with Value and Ref empty;
the validation rule itself is arbitrary. -/
theorem updateSecureFields_entries_carry_only_guid (env : Env) (obj obj' : Object)
    (n n' : Nat) (recs : Option (List (String × ResourceSecureValue)))
    (hperm : ∀ l, (env.rangeOrder l).Perm l)
    (hnd : (mapKeys (secureOf obj)).Nodup)
    (huuid : ∀ i, env.NewString i ≠ "")
    (hstate : ∀ e ∈ secureOf obj, env.IsValidForWrite e.2 = true → e.2.GUID ≠ "" →
      e.2.Value = "" ∧ e.2.Ref = "")
    (h : updateSecureFields env obj n = (obj', n', .ok recs))
    (k : String) (v' : SecureValue) (hk : mapGet (secureOf obj') k = some v') :
    v'.GUID ≠ "" ∧ v'.Value = "" ∧ v'.Ref = "" := by
  obtain ⟨hguid, v, hv, hunres, hres⟩ :=
    updateSecureFields_entries_after env obj obj' n n' recs hperm hnd huuid h k v' hk
  refine ⟨hguid, ?_⟩
  by_cases hg : v.GUID = ""
  · exact hunres hg
  · obtain ⟨hvalid, _, _⟩ :=
      updateSecureFields_ok_entry env obj obj' n n' recs hperm hnd h k v hv
    rw [hres hg]
    exact hstate (k, v) (mem_of_mapGet _ _ _ hv) hvalid hg

theorem updateSecureFields_entries_carry_only_guid_witness :
    (⟨"u", "", ""⟩ : SecureValue).GUID ≠ "" ∧ (⟨"u", "", ""⟩ : SecureValue).Value = "" ∧
      (⟨"u", "", ""⟩ : SecureValue).Ref = "" :=
  updateSecureFields_entries_carry_only_guid sampleEnv freshAndResolved
    { freshAndResolved with
      secure := some [("token", ⟨"u", "", ""⟩), ("old", ⟨"g", "", ""⟩)] }
    0 1 (some [("old", ⟨"g", "", ""⟩), ("token", ⟨"u", "secret123", "ref-1"⟩)])
    sampleEnv_rangeOrder_perm (by decide) sampleUuid_ne_empty (by decide) rfl
    "token" ⟨"u", "", ""⟩ rfl

/-- Claim C2, as stated, fails: on an object with a blank field `bad` and a
first-time field `token`, visited `token` first, `updateSecureFields` returns
the error for `bad` after it has rewritten `token` to a generated guid. -/
theorem updateSecureFields_error_after_rewrite :
    (updateSecureFields sampleEnv blankAndFresh 0).2.2 =
      .error (.unableToWriteSecureValue "bad") ∧
    (updateSecureFields sampleEnv blankAndFresh 0).1.secure =
      some [("bad", ⟨"", "", ""⟩), ("token", ⟨"u", "", ""⟩)] ∧
    (updateSecureFields sampleEnv blankAndFresh 0).1.secure ≠ blankAndFresh.secure := by
  refine ⟨rfl, rfl, ?_⟩
  decide

/-- Claim C2, amended: when `updateSecureFields` returns an error, the failing
field (not valid for write, or valid without guid and refused by the accessor)
is in the object as it was before the call, and every other field is either
as it was or had no GUID and has been rewritten to carry a generated guid
only; nothing but the secure-value map has changed. -/
theorem updateSecureFields_error_entries (env : Env) (obj obj' : Object) (n n' : Nat)
    (e : Error)
    (hperm : ∀ l, (env.rangeOrder l).Perm l)
    (hnd : (mapKeys (secureOf obj)).Nodup)
    (h : updateSecureFields env obj n = (obj', n', .error e)) :
    obj' = { obj with secure := obj'.secure } ∧
    (∃ kf vf, mapGet (secureOf obj) kf = some vf ∧ mapGet (secureOf obj') kf = some vf ∧
      ((e = .unableToWriteSecureValue kf ∧ env.IsValidForWrite vf = false) ∨
       (∃ msg, e = .setSecureValue msg ∧ env.IsValidForWrite vf = true ∧ vf.GUID = ""))) ∧
    (∀ k, mapGet (secureOf obj') k = mapGet (secureOf obj) k ∨
      ∃ v i, mapGet (secureOf obj) k = some v ∧ v.GUID = "" ∧
        mapGet (secureOf obj') k = some ⟨env.NewString i, "", ""⟩) := by
  have hl := updateSecureFields_error_cases env obj obj' n n' e h
  have hnd' : (mapKeys (env.rangeOrder (secureOf obj))).Nodup :=
    (((hperm (secureOf obj)).map Prod.fst).nodup_iff).mpr hnd
  have hin : ∀ k v, (k, v) ∈ env.rangeOrder (secureOf obj) → mapGet (secureOf obj) k = some v :=
    fun k v hm => mapGet_of_mem _ _ _ hnd ((hperm (secureOf obj)).subset hm)
  refine ⟨?_, ?_, ?_⟩
  · have hf := updateSecureFields_frame env obj n
    rw [h] at hf
    exact hf
  · obtain ⟨kf, vf, hmem, hget, hwhy⟩ := secureLoop_error env _ _ _ _ _ _ _ hl hnd'
    exact ⟨kf, vf, hin kf vf hmem, by rw [hget]; exact hin kf vf hmem, hwhy⟩
  · intro k
    have hs := secureLoop_secure env (env.rangeOrder (secureOf obj)) obj n [] k
    rw [hl] at hs
    rcases hs with hs | ⟨v, i, hm, hg, hs⟩
    · exact Or.inl hs
    · exact Or.inr ⟨v, i, hin k v hm, hg, hs⟩

theorem updateSecureFields_error_entries_witness :
    ({ blankAndFresh with secure := some [("bad", ⟨"", "", ""⟩), ("token", ⟨"u", "", ""⟩)] } :
        Object) =
      { blankAndFresh with secure := some [("bad", ⟨"", "", ""⟩), ("token", ⟨"u", "", ""⟩)] } ∧
    (∃ kf vf, mapGet (secureOf blankAndFresh) kf = some vf ∧
      mapGet [("bad", (⟨"", "", ""⟩ : SecureValue)), ("token", ⟨"u", "", ""⟩)] kf = some vf ∧
      ((Error.unableToWriteSecureValue "bad" = .unableToWriteSecureValue kf ∧
          sampleEnv.IsValidForWrite vf = false) ∨
       (∃ msg, Error.unableToWriteSecureValue "bad" = .setSecureValue msg ∧
          sampleEnv.IsValidForWrite vf = true ∧ vf.GUID = ""))) ∧
    (∀ k, mapGet [("bad", (⟨"", "", ""⟩ : SecureValue)), ("token", ⟨"u", "", ""⟩)] k =
        mapGet (secureOf blankAndFresh) k ∨
      ∃ v i, mapGet (secureOf blankAndFresh) k = some v ∧ v.GUID = "" ∧
        mapGet [("bad", (⟨"", "", ""⟩ : SecureValue)), ("token", ⟨"u", "", ""⟩)] k =
          some ⟨sampleEnv.NewString i, "", ""⟩) :=
  updateSecureFields_error_entries sampleEnv blankAndFresh
    { blankAndFresh with secure := some [("bad", ⟨"", "", ""⟩), ("token", ⟨"u", "", ""⟩)] }
    0 1 (.unableToWriteSecureValue "bad") sampleEnv_rangeOrder_perm (by decide) rfl

/-- Claim C3: round trip of a first-time secure value.  If field `k` has an
empty GUID, raw Value `v` and Ref `r`, then after a successful
`updateSecureFields` the in-object value of `k` is a non-empty guid `g` with
empty Value and Ref, and the returned record for `k` has Guid `g`, Value `v`
and Refid `r`. -/
theorem updateSecureFields_first_time_round_trip (env : Env) (obj obj' : Object) (n n' : Nat)
    (recs : Option (List (String × ResourceSecureValue)))
    (hperm : ∀ l, (env.rangeOrder l).Perm l)
    (hnd : (mapKeys (secureOf obj)).Nodup)
    (huuid : ∀ i, env.NewString i ≠ "")
    (h : updateSecureFields env obj n = (obj', n', .ok recs))
    (k v r : String) (hk : mapGet (secureOf obj) k = some ⟨"", v, r⟩) :
    ∃ g, g ≠ "" ∧ mapGet (secureOf obj') k = some ⟨g, "", ""⟩ ∧
      recordOf recs k = some ⟨g, v, r⟩ := by
  obtain ⟨_, _, hunres⟩ :=
    updateSecureFields_ok_entry env obj obj' n n' recs hperm hnd h k ⟨"", v, r⟩ hk
  obtain ⟨i, _, _, h1, h2⟩ := hunres rfl
  exact ⟨env.NewString i, huuid i, h1, h2⟩

theorem updateSecureFields_first_time_round_trip_witness :
    ∃ g, g ≠ "" ∧
      mapGet (secureOf { freshAndResolved with
        secure := some [("token", ⟨"u", "", ""⟩), ("old", ⟨"g", "", ""⟩)] }) "token" =
        some ⟨g, "", ""⟩ ∧
      recordOf (some [("old", ⟨"g", "", ""⟩), ("token", ⟨"u", "secret123", "ref-1"⟩)]) "token" =
        some ⟨g, "secret123", "ref-1"⟩ :=
  updateSecureFields_first_time_round_trip sampleEnv freshAndResolved
    { freshAndResolved with
      secure := some [("token", ⟨"u", "", ""⟩), ("old", ⟨"g", "", ""⟩)] }
    0 1 (some [("old", ⟨"g", "", ""⟩), ("token", ⟨"u", "secret123", "ref-1"⟩)])
    sampleEnv_rangeOrder_perm (by decide) sampleUuid_ne_empty rfl "token" "secret123" "ref-1" rfl

/-- The number of entries without guid does not depend on the visiting order. -/
theorem unresolvedCount_perm (l₁ l₂ : List (String × SecureValue)) (h : l₁.Perm l₂) :
    unresolvedCount l₁ = unresolvedCount l₂ :=
  (h.filter _).length_eq

/-- Claim C4: idempotence of guid assignment.  If field `k` holds a value `w`
whose GUID is non-empty, a successful `updateSecureFields` returns for `k` the
record with that GUID and empty Value and Refid, leaves the in-object value of
`k` as `w`, and draws identifiers only for the fields without GUID; a second
successful call on the object the first one left behind returns the same guid
for `k` and again leaves `w` in place. -/
theorem updateSecureFields_resolved_idempotent (env : Env) (obj obj' : Object) (n n' : Nat)
    (recs : Option (List (String × ResourceSecureValue)))
    (hperm : ∀ l, (env.rangeOrder l).Perm l)
    (hnd : (mapKeys (secureOf obj)).Nodup)
    (h : updateSecureFields env obj n = (obj', n', .ok recs))
    (k : String) (w : SecureValue) (hk : mapGet (secureOf obj) k = some w)
    (hg : w.GUID ≠ "") :
    recordOf recs k = some ⟨w.GUID, "", ""⟩ ∧
    mapGet (secureOf obj') k = some w ∧
    n' = n + unresolvedCount (secureOf obj) ∧
    ∀ (obj'' : Object) (n'' : Nat) (recs' : Option (List (String × ResourceSecureValue))),
      updateSecureFields env obj' n' = (obj'', n'', .ok recs') →
      recordOf recs' k = some ⟨w.GUID, "", ""⟩ ∧ mapGet (secureOf obj'') k = some w := by
  obtain ⟨_, hres, _⟩ := updateSecureFields_ok_entry env obj obj' n n' recs hperm hnd h k w hk
  obtain ⟨h1, h2⟩ := hres hg
  have hcount : n' = n + unresolvedCount (secureOf obj) := by
    rcases updateSecureFields_ok_cases env obj obj' n n' recs h with ⟨he, _, hn, _⟩ | ⟨out, hl, _⟩
    · rw [he, hn]
      simp [unresolvedCount]
    · rw [secureLoop_ok_uuids env _ _ _ _ _ _ _ hl,
        unresolvedCount_perm _ _ (hperm (secureOf obj))]
  refine ⟨h2, h1, hcount, ?_⟩
  intro obj'' n'' recs' h'
  have hkeys := updateSecureFields_mapKeys env obj n hperm
  rw [h] at hkeys
  have hnd' : (mapKeys (secureOf obj')).Nodup := by
    rw [hkeys]
    exact hnd
  obtain ⟨_, hres', _⟩ :=
    updateSecureFields_ok_entry env obj' obj'' n' n'' recs' hperm hnd' h' k w h1
  obtain ⟨h3, h4⟩ := hres' hg
  exact ⟨h4, h3⟩

theorem updateSecureFields_resolved_idempotent_witness :
    recordOf (some [("old", ⟨"g", "", ""⟩), ("token", ⟨"u", "secret123", "ref-1"⟩)]) "old" =
      some ⟨"g", "", ""⟩ ∧
    mapGet (secureOf { freshAndResolved with
      secure := some [("token", ⟨"u", "", ""⟩), ("old", ⟨"g", "", ""⟩)] }) "old" =
      some ⟨"g", "", ""⟩ ∧
    1 = 0 + unresolvedCount (secureOf freshAndResolved) ∧
    ∀ (obj'' : Object) (n'' : Nat) (recs' : Option (List (String × ResourceSecureValue))),
      updateSecureFields sampleEnv { freshAndResolved with
        secure := some [("token", ⟨"u", "", ""⟩), ("old", ⟨"g", "", ""⟩)] } 1 =
        (obj'', n'', .ok recs') →
      recordOf recs' "old" = some ⟨"g", "", ""⟩ ∧
      mapGet (secureOf obj'') "old" = some ⟨"g", "", ""⟩ :=
  updateSecureFields_resolved_idempotent sampleEnv freshAndResolved
    { freshAndResolved with
      secure := some [("token", ⟨"u", "", ""⟩), ("old", ⟨"g", "", ""⟩)] }
    0 1 (some [("old", ⟨"g", "", ""⟩), ("token", ⟨"u", "secret123", "ref-1"⟩)])
    sampleEnv_rangeOrder_perm (by decide) rfl "old" ⟨"g", "", ""⟩ rfl (by decide)

/-- Claim C10: after a successful `updateSecureFields`, the keys of the returned
record mapping are the field names of the object's secure-value map before the
call (none when the map is absent or empty), whatever order `range` visits the
fields in: the two key lists are permutations of one another. -/
theorem updateSecureFields_record_keys (env : Env) (obj obj' : Object) (n n' : Nat)
    (recs : Option (List (String × ResourceSecureValue)))
    (hperm : ∀ l, (env.rangeOrder l).Perm l)
    (hnd : (mapKeys (secureOf obj)).Nodup)
    (h : updateSecureFields env obj n = (obj', n', .ok recs)) :
    (recordKeys recs).Perm (mapKeys (secureOf obj)) ∧
    (∀ k, k ∈ recordKeys recs ↔ k ∈ mapKeys (secureOf obj)) ∧
    (secureOf obj = [] → recs = none) := by
  have hmain : (recordKeys recs).Perm (mapKeys (secureOf obj)) ∧
      (secureOf obj = [] → recs = none) := by
    rcases updateSecureFields_ok_cases env obj obj' n n' recs h with
      ⟨he, _, _, hr⟩ | ⟨out, hl, hr⟩
    · subst hr
      rw [he]
      exact ⟨by simp [recordKeys, mapKeys], fun _ => rfl⟩
    · have hp := (hperm (secureOf obj)).map Prod.fst
      have hnd' : (mapKeys (env.rangeOrder (secureOf obj))).Nodup := hp.nodup_iff.mpr hnd
      have hkeys := secureLoop_ok_keys env _ _ _ _ _ _ _ hl hnd' (by simp [mapKeys])
      subst hr
      refine ⟨?_, ?_⟩
      · simp only [recordKeys, Option.getD_some, hkeys]
        simpa [mapKeys] using hp
      · intro he
        unfold updateSecureFields at h
        cases hs : obj.secure with
        | none => simp [hs] at h
        | some m =>
          simp only [secureOf, hs, Option.getD_some] at he
          subst he
          simp [hs] at h
  exact ⟨hmain.1, fun k => hmain.1.mem_iff, hmain.2⟩

theorem updateSecureFields_record_keys_witness :
    (recordKeys (some [("old", ⟨"g", "", ""⟩), ("token", ⟨"u", "secret123", "ref-1"⟩)])).Perm
      (mapKeys (secureOf freshAndResolved)) ∧
    (∀ k, k ∈ recordKeys (some [("old", ⟨"g", "", ""⟩), ("token", ⟨"u", "secret123", "ref-1"⟩)]) ↔
      k ∈ mapKeys (secureOf freshAndResolved)) ∧
    (secureOf freshAndResolved = [] →
      some [("old", (⟨"g", "", ""⟩ : ResourceSecureValue)),
        ("token", ⟨"u", "secret123", "ref-1"⟩)] = none) :=
  updateSecureFields_record_keys sampleEnv freshAndResolved
    { freshAndResolved with
      secure := some [("token", ⟨"u", "", ""⟩), ("old", ⟨"g", "", ""⟩)] }
    0 1 (some [("old", ⟨"g", "", ""⟩), ("token", ⟨"u", "secret123", "ref-1"⟩)])
    sampleEnv_rangeOrder_perm (by decide) rfl

/-! ## The create and update paths -/

/-- A successful `prepareObjectForUpdate`: who called it, on what, and the
metadata of the object it encoded. -/
theorem prepareObjectForUpdate_ok (env : Env) (user : Option String)
    (updateObject previousObject : RuntimeObject) (n : Nat) (buf : List Nat)
    (recs : Option (List (String × ResourceSecureValue)))
    (h : (prepareObjectForUpdate env user updateObject previousObject n).result =
      .ok (buf, recs)) :
    ∃ userUID upd prev obj',
      user = some userUID ∧ updateObject = .structured upd ∧
      previousObject = .structured prev ∧ upd.name ≠ "" ∧
      (prepareObjectForUpdate env user updateObject previousObject n).object =
        .structured obj' ∧
      env.Encode obj' = .ok buf ∧
      obj'.uid = prev.uid ∧ obj'.createdBy = prev.createdBy ∧
      obj'.creationTimestamp = prev.creationTimestamp ∧
      obj'.updatedBy = userUID ∧
      obj'.updatedTimestamp = env.SetUpdatedTimestampMillis env.nowMillis := by
  unfold prepareObjectForUpdate at h ⊢
  cases user with
  | none => simp at h
  | some userUID =>
    cases updateObject with
    | unstructured msg => simp [MetaAccessor] at h
    | structured upd =>
      simp only [MetaAccessor] at h ⊢
      by_cases hname : upd.name = ""
      · simp [hname] at h
      · simp only [hname, if_false] at h ⊢
        cases previousObject with
        | unstructured msg => simp at h
        | structured prev =>
          simp only [] at h ⊢
          cases ho : env.GetOriginInfo upd.origin with
          | error e => simp [ho] at h
          | ok origin =>
            simp only [ho] at h ⊢
            have hf := updateSecureFields_frame env
              { upd with uid := prev.uid, createdBy := prev.createdBy,
                         creationTimestamp := prev.creationTimestamp,
                         origin := env.SetOriginInfo origin, updatedBy := userUID,
                         updatedTimestamp := env.SetUpdatedTimestampMillis env.nowMillis } n
            rcases hu : updateSecureFields env
              { upd with uid := prev.uid, createdBy := prev.createdBy,
                         creationTimestamp := prev.creationTimestamp,
                         origin := env.SetOriginInfo origin, updatedBy := userUID,
                         updatedTimestamp := env.SetUpdatedTimestampMillis env.nowMillis } n with ⟨o, c, r⟩
            rw [hu] at hf
            simp only [hu] at h ⊢
            cases r with
            | error e => simp at h
            | ok secure =>
              simp only [] at h ⊢
              cases hen : env.Encode o with
              | error e => simp [hen] at h
              | ok bytes =>
                simp only [hen, Except.ok.injEq, Prod.mk.injEq] at h ⊢
                refine ⟨userUID, upd, prev, o, rfl, rfl, rfl, hname, rfl, ?_, ?_⟩
                · rw [hen, h.1]
                · simp only [] at hf
                  rw [hf]
                  exact ⟨rfl, rfl, rfl, rfl, rfl⟩

/-- A successful `prepareObjectForStorage`: who called it, on what, and the
metadata of the object it encoded. -/
theorem prepareObjectForStorage_ok (env : Env) (user : Option String)
    (newObject : RuntimeObject) (n : Nat) (buf : List Nat)
    (recs : Option (List (String × ResourceSecureValue)))
    (h : (prepareObjectForStorage env user newObject n).result = .ok (buf, recs)) :
    ∃ userUID new obj',
      user = some userUID ∧ newObject = .structured new ∧
      new.name ≠ "" ∧ new.resourceVersion = "" ∧
      (prepareObjectForStorage env user newObject n).object = .structured obj' ∧
      env.Encode obj' = .ok buf ∧
      obj'.createdBy = userUID ∧ obj'.updatedBy = "" ∧ obj'.updatedTimestamp = none ∧
      obj'.generateName = "" ∧ obj'.selfLink = "" ∧ obj'.resourceVersion = "" := by
  unfold prepareObjectForStorage at h ⊢
  cases user with
  | none => simp at h
  | some userUID =>
    cases newObject with
    | unstructured msg => simp [MetaAccessor] at h
    | structured new =>
      simp only [MetaAccessor] at h ⊢
      by_cases hname : new.name = ""
      · simp [hname] at h
      · simp only [hname, if_false] at h ⊢
        by_cases hrv : new.resourceVersion = ""
        · simp only [hrv, ne_eq, not_true_eq_false, if_false] at h ⊢
          cases ho : env.GetOriginInfo new.origin with
          | error e => simp [ho] at h
          | ok origin =>
            simp only [ho] at h ⊢
            have hf := updateSecureFields_frame env
              { new with generateName := "", resourceVersion := "", selfLink := "",
                         origin := env.SetOriginInfo origin, updatedBy := "",
                         updatedTimestamp := none, createdBy := userUID } n
            rcases hu : updateSecureFields env
              { new with generateName := "", resourceVersion := "", selfLink := "",
                         origin := env.SetOriginInfo origin, updatedBy := "",
                         updatedTimestamp := none, createdBy := userUID } n with ⟨o, c, r⟩
            rw [hu] at hf
            simp only [hu] at h ⊢
            cases r with
            | error e => simp at h
            | ok secure =>
              simp only [] at h ⊢
              cases hen : env.Encode o with
              | error e => simp [hen] at h
              | ok bytes =>
                simp only [hen, Except.ok.injEq, Prod.mk.injEq] at h ⊢
                refine ⟨userUID, new, o, rfl, rfl, hname, hrv, rfl, ?_, ?_⟩
                · rw [hen, h.1]
                · simp only [] at hf
                  rw [hf]
                  exact ⟨rfl, rfl, rfl, rfl, rfl, rfl⟩
        · simp [hrv] at h

/-- Claim C5: update immutability.  Whatever the update object supplies, the object
a successful `prepareObjectForUpdate` encodes has the uid, createdBy and
creationTimestamp of the previous object; and the call succeeds with the same
bytes and records whatever uid, createdBy and creationTimestamp the caller
supplies, so a differing value is overwritten, not rejected. -/
theorem prepareObjectForUpdate_identity_carried (env : Env) (user : Option String)
    (updateObject : RuntimeObject) (prev : Object) (n : Nat) (buf : List Nat)
    (recs : Option (List (String × ResourceSecureValue)))
    (h : (prepareObjectForUpdate env user updateObject (.structured prev) n).result =
      .ok (buf, recs)) :
    (∃ obj',
      (prepareObjectForUpdate env user updateObject (.structured prev) n).object =
        .structured obj' ∧
      env.Encode obj' = .ok buf ∧
      obj'.uid = prev.uid ∧ obj'.createdBy = prev.createdBy ∧
      obj'.creationTimestamp = prev.creationTimestamp) ∧
    (∀ upd, updateObject = .structured upd → ∀ (x y : String) (z : Int),
      (prepareObjectForUpdate env user
        (.structured { upd with uid := x, createdBy := y, creationTimestamp := z })
        (.structured prev) n).result = .ok (buf, recs)) := by
  refine ⟨?_, ?_⟩
  · obtain ⟨userUID, upd, prev', obj', _, _, hp, _, hobj, henc, h1, h2, h3, _, _⟩ :=
      prepareObjectForUpdate_ok env user updateObject (.structured prev) n buf recs h
    simp only [RuntimeObject.structured.injEq] at hp
    subst hp
    exact ⟨obj', hobj, henc, h1, h2, h3⟩
  · intro upd hupd x y z
    subst hupd
    rw [← h]
    cases user with
    | none => rfl
    | some u =>
      unfold prepareObjectForUpdate
      simp only [MetaAccessor]
      by_cases hname : upd.name = ""
      · simp [hname]
      · simp only [hname, if_false]

theorem prepareObjectForUpdate_identity_carried_witness :
    (∃ obj',
      (prepareObjectForUpdate sampleEnv (some "user:42") (.structured tamperedUpdate)
        (.structured storedObject) 0).object = .structured obj' ∧
      sampleEnv.Encode obj' = .ok [1] ∧
      obj'.uid = storedObject.uid ∧ obj'.createdBy = storedObject.createdBy ∧
      obj'.creationTimestamp = storedObject.creationTimestamp) ∧
    (∀ upd, RuntimeObject.structured tamperedUpdate = .structured upd →
      ∀ (x y : String) (z : Int),
      (prepareObjectForUpdate sampleEnv (some "user:42")
        (.structured { upd with uid := x, createdBy := y, creationTimestamp := z })
        (.structured storedObject) 0).result = .ok ([1], none)) :=
  prepareObjectForUpdate_identity_carried sampleEnv (some "user:42")
    (.structured tamperedUpdate) storedObject 0 [1] none rfl

/-- Claim C6, as stated, fails: on an object with a non-empty resourceVersion and
an empty name, `prepareObjectForStorage` returns the missing-name error, not
`ErrResourceVersionSetOnCreate`. -/
theorem prepareObjectForStorage_name_checked_first :
    (sampleObject "" "5" none).resourceVersion ≠ "" ∧
    (prepareObjectForStorage sampleEnv (some "user:42")
      (.structured (sampleObject "" "5" none)) 0).result = .error .newObjectMustHaveName ∧
    (prepareObjectForStorage sampleEnv (some "user:42")
      (.structured (sampleObject "" "5" none)) 0).result ≠
        .error .ErrResourceVersionSetOnCreate := by
  refine ⟨by decide, rfl, ?_⟩
  intro h
  have h' : (Except.error Error.newObjectMustHaveName :
      Except Error (List Nat × Option (List (String × ResourceSecureValue)))) =
      .error .ErrResourceVersionSetOnCreate := h
  simp at h'

/-- Claim C6, amended: on every object with a non-empty resourceVersion,
`prepareObjectForStorage` called by an authenticated principal returns an
error and neither bytes nor records, leaves the object as it was and draws no
identifier; the error is `ErrResourceVersionSetOnCreate` when the name is
non-empty and the missing-name error when the name is empty. -/
theorem prepareObjectForStorage_resourceVersion_set (env : Env) (userUID : String)
    (o : Object) (n : Nat) (hrv : o.resourceVersion ≠ "") :
    (prepareObjectForStorage env (some userUID) (.structured o) n).result =
      .error (if o.name = "" then .newObjectMustHaveName
        else .ErrResourceVersionSetOnCreate) ∧
    (prepareObjectForStorage env (some userUID) (.structured o) n).object = .structured o ∧
    (prepareObjectForStorage env (some userUID) (.structured o) n).uuids = n := by
  unfold prepareObjectForStorage
  simp only [MetaAccessor]
  by_cases hname : o.name = ""
  · simp [hname]
  · simp [hname, hrv]

theorem prepareObjectForStorage_resourceVersion_set_witness :
    (prepareObjectForStorage sampleEnv (some "user:42")
      (.structured (sampleObject "a" "5" (some [("token", ⟨"", "secret123", ""⟩)]))) 0).result =
      .error (if (sampleObject "a" "5" (some [("token", ⟨"", "secret123", ""⟩)])).name = ""
        then .newObjectMustHaveName else .ErrResourceVersionSetOnCreate) ∧
    (prepareObjectForStorage sampleEnv (some "user:42")
      (.structured (sampleObject "a" "5" (some [("token", ⟨"", "secret123", ""⟩)]))) 0).object =
      .structured (sampleObject "a" "5" (some [("token", ⟨"", "secret123", ""⟩)])) ∧
    (prepareObjectForStorage sampleEnv (some "user:42")
      (.structured (sampleObject "a" "5" (some [("token", ⟨"", "secret123", ""⟩)]))) 0).uuids = 0 :=
  prepareObjectForStorage_resourceVersion_set sampleEnv "user:42"
    (sampleObject "a" "5" (some [("token", ⟨"", "secret123", ""⟩)])) 0 (by decide)

/-- Claim C7: on an object whose name is empty, `prepareObjectForStorage` and
`prepareObjectForUpdate` (with any previous object), called by an
authenticated principal, return the missing-name error and neither bytes nor
records, whatever the other fields contain; the object is left as it was. -/
theorem prepare_empty_name_rejected (env : Env) (userUID : String) (o : Object)
    (previousObject : RuntimeObject) (n : Nat) (hname : o.name = "") :
    (prepareObjectForStorage env (some userUID) (.structured o) n).result =
      .error .newObjectMustHaveName ∧
    (prepareObjectForStorage env (some userUID) (.structured o) n).object = .structured o ∧
    (prepareObjectForUpdate env (some userUID) (.structured o) previousObject n).result =
      .error .updatedObjectMustHaveName ∧
    (prepareObjectForUpdate env (some userUID) (.structured o) previousObject n).object =
      .structured o := by
  unfold prepareObjectForStorage prepareObjectForUpdate
  simp [MetaAccessor, hname]

theorem prepare_empty_name_rejected_witness :
    (prepareObjectForStorage sampleEnv (some "user:42")
      (.structured (sampleObject "" "" (some [("token", ⟨"", "secret123", ""⟩)]))) 0).result =
      .error .newObjectMustHaveName ∧
    (prepareObjectForStorage sampleEnv (some "user:42")
      (.structured (sampleObject "" "" (some [("token", ⟨"", "secret123", ""⟩)]))) 0).object =
      .structured (sampleObject "" "" (some [("token", ⟨"", "secret123", ""⟩)])) ∧
    (prepareObjectForUpdate sampleEnv (some "user:42")
      (.structured (sampleObject "" "" (some [("token", ⟨"", "secret123", ""⟩)])))
      (.unstructured "no metadata") 0).result = .error .updatedObjectMustHaveName ∧
    (prepareObjectForUpdate sampleEnv (some "user:42")
      (.structured (sampleObject "" "" (some [("token", ⟨"", "secret123", ""⟩)])))
      (.unstructured "no metadata") 0).object =
      .structured (sampleObject "" "" (some [("token", ⟨"", "secret123", ""⟩)])) :=
  prepare_empty_name_rejected sampleEnv "user:42"
    (sampleObject "" "" (some [("token", ⟨"", "secret123", ""⟩)]))
    (.unstructured "no metadata") 0 rfl

/-- Claim C8, as stated, fails: with an update-time setter that keeps whole seconds,
a successful `prepareObjectForUpdate` at instant 1730000000123 ms leaves
updatedTimestamp at 1730000000000 ms, not at the current instant in
milliseconds; updatedBy is the principal's UID. -/
theorem prepareObjectForUpdate_timestamp_whole_seconds :
    (prepareObjectForUpdate sampleEnv (some "user:42") (.structured tamperedUpdate)
      (.structured storedObject) 0).result = .ok ([1], none) ∧
    (prepareObjectForUpdate sampleEnv (some "user:42") (.structured tamperedUpdate)
      (.structured storedObject) 0).object =
      .structured { storedObject with updatedBy := "user:42",
                                      updatedTimestamp := some 1730000000000 } ∧
    (some 1730000000000 : Option Int) ≠ some sampleEnv.nowMillis := by
  refine ⟨rfl, rfl, ?_⟩
  decide

/-- Claim C8, amended: the object a successful `prepareObjectForUpdate` encodes has
updatedBy equal to the acting principal's UID and updatedTimestamp equal to
what the accessor's `SetUpdatedTimestampMillis` stores for the current instant
in milliseconds, whatever the update object supplied and also when it is the
previous object itself. -/
theorem prepareObjectForUpdate_refreshes_updated (env : Env) (userUID : String)
    (updateObject previousObject : RuntimeObject) (n : Nat) (buf : List Nat)
    (recs : Option (List (String × ResourceSecureValue)))
    (h : (prepareObjectForUpdate env (some userUID) updateObject previousObject n).result =
      .ok (buf, recs)) :
    ∃ obj',
      (prepareObjectForUpdate env (some userUID) updateObject previousObject n).object =
        .structured obj' ∧
      env.Encode obj' = .ok buf ∧
      obj'.updatedBy = userUID ∧
      obj'.updatedTimestamp = env.SetUpdatedTimestampMillis env.nowMillis := by
  obtain ⟨u, upd, prev, obj', hu, _, _, _, hobj, henc, _, _, _, h4, h5⟩ :=
    prepareObjectForUpdate_ok env (some userUID) updateObject previousObject n buf recs h
  simp only [Option.some.injEq] at hu
  subst hu
  exact ⟨obj', hobj, henc, h4, h5⟩

theorem prepareObjectForUpdate_refreshes_updated_witness :
    ∃ obj',
      (prepareObjectForUpdate sampleEnv (some "user:42") (.structured storedObject)
        (.structured storedObject) 0).object = .structured obj' ∧
      sampleEnv.Encode obj' = .ok [1] ∧
      obj'.updatedBy = "user:42" ∧
      obj'.updatedTimestamp = sampleEnv.SetUpdatedTimestampMillis sampleEnv.nowMillis :=
  prepareObjectForUpdate_refreshes_updated sampleEnv "user:42" (.structured storedObject)
    (.structured storedObject) 0 [1] none rfl

/-- Claim C9: the object a successful `prepareObjectForStorage` encodes has
createdBy equal to the acting principal's UID, updatedBy empty,
updatedTimestamp unset, and generate-name hint, self-link and resourceVersion
empty, whatever the caller supplied for those fields. -/
theorem prepareObjectForStorage_stamps_created (env : Env) (userUID : String)
    (newObject : RuntimeObject) (n : Nat) (buf : List Nat)
    (recs : Option (List (String × ResourceSecureValue)))
    (h : (prepareObjectForStorage env (some userUID) newObject n).result = .ok (buf, recs)) :
    ∃ obj',
      (prepareObjectForStorage env (some userUID) newObject n).object = .structured obj' ∧
      env.Encode obj' = .ok buf ∧
      obj'.createdBy = userUID ∧ obj'.updatedBy = "" ∧ obj'.updatedTimestamp = none ∧
      obj'.generateName = "" ∧ obj'.selfLink = "" ∧ obj'.resourceVersion = "" := by
  obtain ⟨u, new, obj', hu, _, _, _, hobj, henc, h1, h2, h3, h4, h5, h6⟩ :=
    prepareObjectForStorage_ok env (some userUID) newObject n buf recs h
  simp only [Option.some.injEq] at hu
  subst hu
  exact ⟨obj', hobj, henc, h1, h2, h3, h4, h5, h6⟩

theorem prepareObjectForStorage_stamps_created_witness :
    ∃ obj',
      (prepareObjectForStorage sampleEnv (some "user:42")
        (.structured (sampleObject "a" "" (some [("token", ⟨"", "secret123", ""⟩)]))) 0).object =
        .structured obj' ∧
      sampleEnv.Encode obj' = .ok [1] ∧
      obj'.createdBy = "user:42" ∧ obj'.updatedBy = "" ∧ obj'.updatedTimestamp = none ∧
      obj'.generateName = "" ∧ obj'.selfLink = "" ∧ obj'.resourceVersion = "" :=
  prepareObjectForStorage_stamps_created sampleEnv "user:42"
    (.structured (sampleObject "a" "" (some [("token", ⟨"", "secret123", ""⟩)]))) 0 [1]
    (some [("token", ⟨"u", "secret123", ""⟩)]) rfl

end Apistore
